import Mathlib

/-!
Verification of the thesaurus-page relation extractor
(`src/wiktextract/extractor/en/thesaurus.py`).

The Python code is shallowly embedded here.  Python strings are modelled as
`List Char` (named `Str`), Python `None`-or-value results as `Option`,
and the mutable `nonlocal` walk state as an explicit `Ctx` value threaded
through the recursion.  External collaborators (the `mediawiki_langcodes`
lookup functions, the configuration tables `LINKAGE_SUBTITLES`,
`POS_SUBTITLES`, the sense-heading marker, the qualifier parser
`parse_sense_qualifier` and the namespace data) are parameters collected in
an `Env` record; the fixed table `IGNORED_SUBTITLE_TAGS_MAP`, which lives in
the source file itself, is embedded verbatim.  Logging calls are modelled as
emitted `LogEvent` values.  Regular-expression operations of the source are
translated to explicit character-level scanners; each carries a comment
relating it to the regex it implements.
-/

/-- Python strings, modelled as lists of characters. -/
abbrev Str := List Char

/-- Whitespace test used for the regex class `\s` and for `str.strip()`.
ASCII whitespace only; the inputs handled by the claims are ASCII. -/
def isSpc (c : Char) : Bool :=
  c = ' ' || c = '\t' || c = '\n' || c = '\r' || c = '\x0b' || c = '\x0c'

/-- Python `str.lower()` (ASCII case folding suffices for the tables used). -/
def listLower (s : Str) : Str := s.map Char.toLower

/-- Python `str.strip()`: remove whitespace from both ends. -/
def pyStrip (s : Str) : Str := (s.dropWhile isSpc).rdropWhile isSpc

/-- Does `pat` occur as a contiguous substring?  Python `pat in s`. -/
def hasSub (pat : Str) : Str → Bool
  | [] => pat.isPrefixOf []
  | c :: t => pat.isPrefixOf (c :: t) || hasSub pat t

/-- Split a string around the first (leftmost) occurrence of `pat`,
returning the part before and the part after the occurrence. -/
def splitFirst (pat : Str) : Str → Option (Str × Str)
  | [] => if pat.isPrefixOf ([] : Str) then some ([], []) else none
  | c :: t =>
    if pat.isPrefixOf (c :: t) then some ([], (c :: t).drop pat.length)
    else (splitFirst pat t).map (fun p => (c :: p.1, p.2))

/-- Split a string around the last occurrence of `pat`. -/
def splitLast (pat : Str) (s : Str) : Option (Str × Str) :=
  (splitFirst pat.reverse s.reverse).map (fun p => (p.2.reverse, p.1.reverse))

theorem isPrefixOf_nil_eq_false {pat : Str} (hne : pat ≠ []) :
    pat.isPrefixOf ([] : Str) = false := by
  rw [Bool.eq_false_iff]
  intro hcon
  rw [ List.isPrefixOf_iff_prefix, List.prefix_nil] at hcon
  exact hne hcon

theorem hasSub_true_iff (pat s : Str) : hasSub pat s = true ↔ pat <:+: s := by
  induction s with
  | nil =>
    simp [hasSub, List.isPrefixOf_iff_prefix, List.infix_nil, List.prefix_nil]
  | cons c t ih =>
    simp [hasSub, List.isPrefixOf_iff_prefix, List.infix_cons_iff, ih]

theorem splitFirst_eq_append {pat s a b : Str}
    (h : splitFirst pat s = some (a, b)) : s = a ++ pat ++ b := by
  induction s generalizing a b with
  | nil =>
    simp only [splitFirst] at h
    split at h
    · rename_i hp
      rw [ List.isPrefixOf_iff_prefix, List.prefix_nil] at hp
      simp only [Option.some.injEq, Prod.mk.injEq] at h
      obtain ⟨h1, h2⟩ := h
      simp [← h1, ← h2, hp]
    · exact absurd h (by simp)
  | cons c t ih =>
    simp only [splitFirst] at h
    split at h
    · rename_i hp
      rw [ List.isPrefixOf_iff_prefix] at hp
      obtain ⟨r, hr⟩ := hp
      simp only [Option.some.injEq, Prod.mk.injEq] at h
      obtain ⟨h1, h2⟩ := h
      rw [← h1, ← h2, ← hr]
      simp only [List.nil_append]
      rw [List.drop_left]
    · cases hsp : splitFirst pat t with
      | none => rw [hsp] at h; exact absurd h (by simp)
      | some p =>
        rw [hsp] at h
        simp only [Option.map_some', Option.some.injEq, Prod.mk.injEq] at h
        obtain ⟨h1, h2⟩ := h
        have := ih (a := p.1) (b := p.2) (by rw [hsp])
        rw [← h1, ← h2]
        simp [this]

theorem splitFirst_before_no_occ {pat s a b : Str} (hne : pat ≠ [])
    (h : splitFirst pat s = some (a, b)) : hasSub pat a = false := by
  induction s generalizing a b with
  | nil =>
    simp only [splitFirst] at h
    split at h
    · simp only [Option.some.injEq, Prod.mk.injEq] at h
      rw [← h.1]
      simp [hasSub, isPrefixOf_nil_eq_false hne]
    · exact absurd h (by simp)
  | cons c t ih =>
    simp only [splitFirst] at h
    split at h
    · simp only [Option.some.injEq, Prod.mk.injEq] at h
      rw [← h.1]
      simp [hasSub, isPrefixOf_nil_eq_false hne]
    · rename_i hp
      cases hsp : splitFirst pat t with
      | none => rw [hsp] at h; exact absurd h (by simp)
      | some p =>
        rw [hsp] at h
        simp only [Option.map_some', Option.some.injEq, Prod.mk.injEq] at h
        obtain ⟨h1, _⟩ := h
        have hrec : hasSub pat p.1 = false := ih (a := p.1) (b := p.2) (by rw [hsp])
        rw [← h1]
        simp only [hasSub, Bool.or_eq_false_iff]
        refine ⟨?_, hrec⟩
        rw [Bool.eq_false_iff]
        intro hcon
        rw [ List.isPrefixOf_iff_prefix] at hcon hp
        have happ : t = p.1 ++ pat ++ p.2 :=
          splitFirst_eq_append (by rw [hsp] : splitFirst pat t = some (p.1, p.2))
        have hpre2 : (c :: p.1) <+: (c :: t) := by
          rw [happ]
          exact ⟨pat ++ p.2, by simp⟩
        exact absurd (hcon.trans hpre2) hp

theorem no_occ_mono {pat s t : Str} (hst : t <:+: s)
    (h : hasSub pat s = false) : hasSub pat t = false := by
  by_contra hc
  rw [Bool.not_eq_false, hasSub_true_iff] at hc
  rw [← Bool.not_eq_true, hasSub_true_iff] at h
  exact h (hc.trans hst)

theorem splitFirst_eq_none_of_no_occ {pat s : Str}
    (h : hasSub pat s = false) : splitFirst pat s = none := by
  induction s with
  | nil =>
    simp only [hasSub] at h
    simp [splitFirst, h]
  | cons c t ih =>
    simp only [hasSub, Bool.or_eq_false_iff] at h
    simp [splitFirst, h.1, ih h.2]

/-- Helper: a pattern that does not occur in the nonempty block `x` and has
no nontrivial self-overlap cannot be a prefix of `x ++ (pat ++ b)`. -/
theorem not_prefix_of_no_occ {pat x b : Str} (hx : x ≠ [])
    (ha : hasSub pat x = false)
    (hov : ∀ j, j < pat.length → 0 < j → pat.drop j ≠ pat.take (pat.length - j)) :
    ¬ (pat <+: x ++ (pat ++ b)) := by
  intro hcon
  by_cases hle : pat.length ≤ x.length
  · have hpre : pat <+: x :=
      List.prefix_of_prefix_length_le hcon (List.prefix_append x (pat ++ b)) hle
    have : hasSub pat x = true := by
      rw [hasSub_true_iff]
      exact hpre.isInfix
    rw [this] at ha
    exact Bool.noConfusion ha
  · push_neg at hle
    obtain ⟨r, hr⟩ := hcon
    have hdrop : pat.drop x.length ++ r = pat ++ b := by
      have h1 : (pat ++ r).drop x.length = pat.drop x.length ++ r :=
        List.drop_append_of_le_length (le_of_lt hle)
      have h2 : (x ++ (pat ++ b)).drop x.length = pat ++ b :=
        List.drop_left x (pat ++ b)
      rw [← h1, ← h2, hr]
    have htake : pat.drop x.length = pat.take (pat.length - x.length) := by
      have hlen : (pat.drop x.length).length = pat.length - x.length := by simp
      have h3 : (pat.drop x.length ++ r).take (pat.length - x.length)
          = pat.drop x.length := List.take_left' hlen
      have h4 : (pat ++ b).take (pat.length - x.length)
          = pat.take (pat.length - x.length) :=
        List.take_append_of_le_length (Nat.sub_le _ _)
      rw [← h3, hdrop, h4]
    exact hov x.length hle (List.length_pos.mpr hx) htake

/-- Key helper for locating a sentinel: if `pat` does not occur in `a` and
`pat` has no nontrivial self-overlap, then the first occurrence of `pat`
in `a ++ pat ++ b` is exactly the explicit one. -/
theorem splitFirst_append {pat a b : Str} (hne : pat ≠ [])
    (ha : hasSub pat a = false)
    (hov : ∀ j, j < pat.length → 0 < j → pat.drop j ≠ pat.take (pat.length - j)) :
    splitFirst pat (a ++ pat ++ b) = some (a, b) := by
  induction a with
  | nil =>
    rw [List.nil_append]
    obtain ⟨q, qt, rfl⟩ : ∃ q qt, pat = q :: qt := by
      cases pat with
      | nil => exact absurd rfl hne
      | cons q qt => exact ⟨q, qt, rfl⟩
    rw [List.cons_append]
    simp only [splitFirst]
    have hpre : (q :: qt).isPrefixOf (q :: (qt ++ b)) = true := by
      rw [ List.isPrefixOf_iff_prefix, ← List.cons_append]
      exact List.prefix_append _ _
    rw [hpre]
    simp only [if_true]
    rw [← List.cons_append, List.drop_left]
  | cons c a' ih =>
    have ha' : hasSub pat a' = false := by
      simp only [hasSub, Bool.or_eq_false_iff] at ha
      exact ha.2
    have hnp : pat.isPrefixOf (c :: (a' ++ (pat ++ b))) = false := by
      rw [Bool.eq_false_iff]
      intro hcon
      rw [ List.isPrefixOf_iff_prefix] at hcon
      exact @not_prefix_of_no_occ pat (c :: a') b (List.cons_ne_nil c a') ha hov
        (by rw [List.cons_append]; exact hcon)
    rw [List.append_assoc, List.cons_append]
    simp only [splitFirst]
    rw [hnp]
    simp only [Bool.false_eq_true, if_false]
    have hih := ih ha'
    rw [List.append_assoc] at hih
    rw [hih]
    simp

/-!
The parsed node tree.  `wikitextprocessor` (an external collaborator) hands
the walker a tree of `WikiNode` objects whose children may be plain strings
or further nodes.  The walker inspects only `kind`, `sarg`, `largs` and
`children`; the heading levels LEVEL2..LEVEL6 of `LEVEL_KINDS` are collapsed
into the single kind `level` because the walker only tests membership in
`LEVEL_KINDS`, never the exact level.  `largs` (a list of argument lists in
the original) is flattened to one node list, which is faithful for every
use the walker makes of it (`node_to_text` rendering and uniform
recursion). -/
inductive NKind where
  | root
  | level
  | list
  | listItem
  | other
deriving DecidableEq, Repr

mutual
/-- One parsed node, or a plain string appearing among children. -/
inductive WNode where
  | text (s : Str)
  | node (kind : NKind) (sarg : Str) (largs : WList) (children : WList)
deriving DecidableEq, Repr

/-- A list of children/argument nodes (a dedicated inductive so that the
walker below is structurally recursive). -/
inductive WList where
  | nil
  | cons (n : WNode) (t : WList)
deriving DecidableEq, Repr
end

/-- Build a `WList` from a `List WNode` (convenience for concrete trees). -/
def ofList : List WNode → WList
  | [] => .nil
  | n :: t => .cons n (ofList t)

mutual
/-- Modelled from the spec: external `node_to_text` renders node contents as
text; modelled as concatenation of the text leaves. -/
def wnodeText : WNode → Str
  | .text s => s
  | .node _ _ largs children => wlistText largs ++ wlistText children

def wlistText : WList → Str
  | .nil => []
  | .cons n t => wnodeText n ++ wlistText t
end

mutual
/-- External `WikiNode.contain_node(kind)`: does some descendant node
(reached through children) have the given kind? -/
def wnodeHasKind (k : NKind) : WNode → Bool
  | .text _ => false
  | .node k2 _ _ children => k2 = k || wlistHasKind k children

def wlistHasKind (k : NKind) : WList → Bool
  | .nil => false
  | .cons n t => wnodeHasKind k n || wlistHasKind k t
end

/-- Modelled from the spec: `clean_node` (in `wiktextract.page`, not under
`src/`) renders a list item to a cleaned text line; modelled as
concatenation of the text leaves of the item contents. -/
def cleanText (l : WList) : Str := wlistText l

/-- The output record (`ThesaurusTerm` of `wiktextract.thesaurus`, a plain
record whose fields are exactly those assigned at the construction site in
`recurse`).  `Option` fields model Python `None`. -/
structure ThesaurusTerm where
  entry : Str
  language_code : Option Str
  pos : Option Str
  linkage : Str
  term : Str
  tags : Option Str
  topics : Option Str
  roman : Option Str
  sense : Option Str
deriving DecidableEq, Repr

/-- Diagnostic log events (the `logging.debug` calls of the source). -/
inductive LogEvent where
  | unexpectedListWithoutLang
  | starInWord (w : Str)
  | langNotRecognized (l : Str)
  | unhandledSubtitle (s : Str)
deriving DecidableEq, Repr

/-- The mutable `nonlocal` state of `recurse`: `lang`, `pos`, `sense`,
`linkage` and `subtitle_tags` (`entry_id` is never read and is omitted). -/
structure Ctx where
  lang : Option Str
  pos : Option Str
  sense : Option Str
  linkage : Option Str
  subtitle_tags : List Str
deriving DecidableEq, Repr

/-- External collaborators and configuration tables, all read-only.
`name_to_code` and `code_to_name` come from `mediawiki_langcodes`; the
subtitle tables and the sense marker come from `wxr.config`;
`parseSenseQualifier` is `wiktextract.form_descriptions.parse_sense_qualifier`
(observed only through the tags/topics it deposits); `nsPrefixes` is
`ns_title_prefix_tuple(wxr, "Thesaurus")`.  An `Option Str` result models a
Python value that may be `None` or a string. -/
structure Env where
  name_to_code : Str → Option Str
  code_to_name : Str → Str
  senseMarker : Str
  linkageSubtitles : Str → Option Str
  posSubtitles : Str → Option Str
  parseSenseQualifier : Str → List Str × List Str
  nsPrefixes : List Str

/-- The in-file table `IGNORED_SUBTITLE_TAGS_MAP` (embedded verbatim). -/
def IGNORED_SUBTITLE_TAGS_MAP : List (Str × List Str) := [
  (("by reason").data, []),
  (("by period of time").data, []),
  (("by degree").data, []),
  (("by type").data, []),
  (("other").data, []),
  (("opaque slang terms").data, [("slang").data]),
  (("slang").data, [("slang").data]),
  (("colloquial, archaic, slang").data,
    [("colloquial").data, ("archaic").data, ("slang").data]),
  (("euphemisms").data, [("euphemism").data]),
  (("colloquialisms").data, [("colloquial").data]),
  (("colloquialisms or slang").data, [("colloquial").data]),
  (("technical terms misused").data, [("colloquial").data]),
  (("people").data, []),
  (("proper names").data, [("proper-noun").data]),
  (("race-based (warning- offensive)").data, [("offensive").data]),
  (("substance addicts").data, []),
  (("non-substance addicts").data, []),
  (("echoing sounds").data, []),
  (("movement sounds").data, []),
  (("impacting sounds").data, []),
  (("destructive sounds").data, []),
  (("noisy sounds").data, []),
  (("vocal sounds").data, []),
  (("miscellaneous sounds").data, []),
  (("age and gender").data, []),
  (("breeds and types").data, []),
  (("by function").data, []),
  (("wild horses").data, []),
  (("body parts").data, []),
  (("colors, patterns and markings").data, []),
  (("diseases").data, []),
  (("equipment and gear").data, []),
  (("groups").data, []),
  (("horse-drawn vehicles").data, []),
  (("places").data, []),
  (("sports").data, []),
  (("sounds and behavior").data, []),
  (("obscure derivations").data, []),
  (("plants").data, []),
  (("animals").data, []),
  (("common").data, []),
  (("rare").data, [("rare").data])
]

/-- The fixed set of ignored section subtitles (the tuple tested at the
`if subtitle in (...)` site of `recurse`). -/
def ignoredSubtitles : List Str := [
  ("further reading").data,
  ("external links").data,
  ("references").data,
  ("translations").data,
  ("notes").data,
  ("usage").data,
  ("work to be done").data,
  ("quantification").data,
  ("abbreviation").data,
  ("symbol").data
]

/-!
Text pipeline applied to one cleaned list-item line (`recurse`, terminal
list branch).  Each stage corresponds to one regex operation of the source,
implemented as an explicit character scanner.
-/

/-- Stage 1, `re.match(r"(?s)^\(([^)]*)\):\s*(.*)$", w)`: a leading
parenthesized sense marker.  The class `[^)]*` stops at the first closing
parenthesis, which must be followed immediately by a colon; the greedy
`\s*` then swallows the following whitespace. -/
def senseSplit (w : Str) : Option (Str × Str) :=
  match w with
  | '(' :: rest =>
    match rest.dropWhile (· != ')') with
    | ')' :: ':' :: tail => some (rest.takeWhile (· != ')'), tail.dropWhile isSpc)
    | _ => none
  | _ => none

/-- One match attempt for `re.sub(r"\s*\[W[Ss]\]", "", w)` at the current
position: optional whitespace then a thesaurus cross-reference marker.
Returns the remainder after the marker on success. -/
def wsTagDrop (s : Str) : Option Str :=
  let t := s.dropWhile isSpc
  if (("[WS]").data).isPrefixOf t || (("[Ws]").data).isPrefixOf t then
    some (t.drop 4)
  else none

/-- Scanner for `re.sub(r"\s*\[W[Ss]\]", "", w)`: left-to-right scan,
removing each non-overlapping match.  Fuel is the string length; every
successful match consumes at least the four marker characters, so the fuel
never runs out on the strings actually scanned. -/
def removeWSF : Nat → Str → Str
  | 0, s => s
  | _ + 1, [] => []
  | n + 1, c :: rest =>
    match wsTagDrop (c :: rest) with
    | some r => removeWSF n r
    | none => c :: removeWSF n rest

/-- The whole substitution `re.sub(r"\s*\[W[Ss]\]", "", w)`. -/
def removeWS (s : Str) : Str := removeWSF s.length s

/-- Python word-character test, for the `\b` boundary before `literally`. -/
def isWordChar (c : Char) : Bool := c.isAlphanum || c = '_'

/-- The quoted part `“([^"]*)"\s*` of the gloss regex: an opening curly
quote, a run of characters other than a straight double quote, the closing
straight quote, then trailing whitespace.  Returns the remainder. -/
def glossQuote (t : Str) : Option Str :=
  match t with
  | '“' :: rest =>
    match rest.dropWhile (· != '"') with
    | '"' :: tail => some (tail.dropWhile isSpc)
    | _ => none
  | _ => none

/-- The optional `(, )?` group followed by the quoted part; trying the
group first and falling back mirrors regex backtracking. -/
def glossComma (t : Str) : Option Str :=
  match (if ((", ").data).isPrefixOf t then glossQuote (t.drop 2) else none) with
  | some r => some r
  | none => glossQuote t

/-- One match attempt for
the gloss substitution of line 166 at the current
position.  `prev` is the character before this position (for the `\b`
boundary); the captured gloss is discarded by the source (the local
`english` is never stored in the record), so only the remainder matters. -/
def glossTryAt (prev : Option Char) (s : Str) : Option Str :=
  let boundary := match prev with
    | none => true
    | some c => !isWordChar c
  let viaLit :=
    if boundary && (("literally").data).isPrefixOf s then
      glossComma ((s.drop 9).dropWhile isSpc)
    else none
  match viaLit with
  | some r => some r
  | none => glossComma s

/-- Scanner for the gloss `re.sub`: left-to-right, non-overlapping matches.
After a removed match the preceding character is never a word character
(it is the closing quote or trailing whitespace), which a quote character
represents faithfully for the only use, the `\b` test. -/
def removeGlossF : Nat → Option Char → Str → Str
  | 0, _, s => s
  | _ + 1, _, [] => []
  | n + 1, prev, c :: rest =>
    match glossTryAt prev (c :: rest) with
    | some r => removeGlossF n (some '"') r
    | none => c :: removeGlossF n (some c) rest

/-- The gloss substitution of line 166, removing an optional literally
marker, an optional comma, and a quoted span with trailing whitespace (the
extracted gloss itself is dropped by the source). -/
def removeGloss (s : Str) : Str := removeGlossF s.length none s

/-- The transliteration start sentinel inserted by the pre-parse
substitution of `extract_thesaurus_page` (line 92-96). -/
def XLITSpat : Str := ("XLITS").data

/-- The transliteration end sentinel. -/
def XLITEpat : Str := ("XLITE").data

/-- Locate the match of `re.sub(r"\(([^)]*)\)$", qual_fn, w)` in the body
of the string (the final `)` already removed): the leftmost `(` with no
`)` between it and the end.  Returns `(prefix, qualifier)`. -/
def qualScan : Str → Option (Str × Str)
  | [] => none
  | '(' :: rest =>
    if rest.contains ')' then
      (qualScan rest).map (fun p => ('(' :: p.1, p.2))
    else some ([], rest)
  | c :: rest => (qualScan rest).map (fun p => (c :: p.1, p.2))

/-- The full trailing-qualifier match: the string must end in `)` and
contain a matching `(`. -/
def qualMatch (w : Str) : Option (Str × Str) :=
  match w.getLast? with
  | some ')' => qualScan w.dropLast
  | _ => none

/-- Stage 4, `w = re.sub(r"\(([^)]*)\)$", qual_fn, w).strip()`: consume a
trailing parenthesized qualifier.  `qual_fn` keeps the qualifier verbatim
(without its parentheses) when it equals the item sense or contains the
transliteration sentinel, and otherwise feeds it to
`parse_sense_qualifier`, collecting tags and topics. -/
def qualStep (env : Env) (item_sense : Option Str) (w : Str) :
    Str × List Str × List Str :=
  match qualMatch w with
  | none => (pyStrip w, [], [])
  | some (before, q) =>
    if item_sense = some q then (pyStrip before, [], [])
    else if hasSub XLITSpat q then (pyStrip (before ++ q), [], [])
    else
      let r := env.parseSenseQualifier q
      (pyStrip before, r.1, r.2)

/-- Line 193: `if not w or w.startswith("---") or w == "—"` (the
single em-dash). -/
def sepReject (w : Str) : Bool :=
  w.isEmpty || (("---").data).isPrefixOf w || w = ('—' :: [])

/-- Python `linkage or "synonyms"`: `None` and the empty string both fall
back to the default. -/
def pyOr (o : Option Str) (dflt : Str) : Str :=
  match o with
  | none => dflt
  | some s => if s.isEmpty then dflt else s

/-- The extraction `re.match(r"(?s)(.*?)\s*XLITS(.*?)XLITE\s*", w1)`.
The lazy first
group together with the greedy `\s*` puts the match at the first `XLITS`
occurrence with the whitespace run before it stripped from the group; the
lazy second group ends at the first following `XLITE`.  If no `XLITE`
follows the first `XLITS` then none follows a later `XLITS` either (the
sentinels cannot overlap), so the whole match fails — hence searching from
the first `XLITS` only is faithful. -/
def xlitSplit (s : Str) : Option (Str × Str) :=
  match splitFirst XLITSpat s with
  | none => none
  | some (bef, rest) =>
    match splitFirst XLITEpat rest with
    | none => none
    | some (mid, _) => some (bef.rdropWhile isSpc, mid)

/-- Line 203: `if w1.startswith(ns_title_prefix_tuple(wxr, "Thesaurus")):
w1 = w1[10:]` — note the unconditional removal of ten characters. -/
def stripNsFix (env : Env) (w1 : Str) : Str :=
  if env.nsPrefixes.any (fun p => p.isPrefixOf w1) then w1.drop 10 else w1

/-- Line 205: `w1.removesuffix(" [⇒ thesaurus]")`. -/
def removeThesSuffix (w1 : Str) : Str :=
  if ((" [⇒ thesaurus]").data).isSuffixOf w1 then
    w1.take (w1.length - ((" [⇒ thesaurus]").data).length)
  else w1

/-- The per-candidate normalization of the inner loop: the part before an
extracted transliteration (stage `re.match(..XLITS..XLITE..)`), stripped,
with the namespace prefix and the trailing cross-reference removed. -/
def termResidue (env : Env) (w1 : Str) : Str :=
  removeThesSuffix (stripNsFix env (pyStrip (match xlitSplit w1 with
    | some p => p.1
    | none => w1)))

/-- The transliteration extracted from a candidate, if any (`roman`). -/
def termRoman (w1 : Str) : Option Str := (xlitSplit w1).map (fun p => p.2)

/-- The inner `for w1 in w.split(",")` loop: per-candidate transliteration
extraction, strip, namespace-prefix removal, cross-reference suffix
removal, then emission of one `ThesaurusTerm` for every nonempty residue,
logging when the language name has no code. -/
def emitTerms (env : Env) (word : Str) (lang : Str) (pos : Option Str)
    (rel : Str) (item_sense : Option Str) (tags topics : List Str) :
    List Str → List ThesaurusTerm × List LogEvent
  | [] => ([], [])
  | w1 :: restParts =>
    let rest := emitTerms env word lang pos rel item_sense tags topics restParts
    if (termResidue env w1).isEmpty then rest
    else
      let lang_code := env.name_to_code lang
      let logHere : List LogEvent :=
        if lang_code.isNone then [LogEvent.langNotRecognized lang] else []
      ({ entry := word
         language_code := lang_code
         pos := pos
         linkage := rel
         term := termResidue env w1
         tags := if tags.isEmpty then none else some (List.intercalate (("|").data) tags)
         topics := if topics.isEmpty then none else some (List.intercalate (("|").data) topics)
         roman := termRoman w1
         sense := item_sense } :: rest.1,
       logHere ++ rest.2)

/-- Processing of one list item (the body of the `for node in
contents.children` loop, given the cleaned line `w0`).  Returns `none` for
the Python `return None` that aborts the enclosing list, together with the
log events emitted before the abort. -/
def processItem (env : Env) (word : Str) (lang : Str)
    (pos sense linkage : Option Str) (w0 : Str) :
    Option (List ThesaurusTerm) × List LogEvent :=
  let logs0 : List LogEvent :=
    if w0.contains '*' then [LogEvent.starInWord w0] else []
  let senseRes := senseSplit w0
  let item_sense : Option Str := match senseRes with
    | some p => some p.1
    | none => sense
  let wA : Str := match senseRes with
    | some p => p.2
    | none => w0
  let wB := removeGloss (removeWS wA)
  let qres := qualStep env item_sense wB
  let w := qres.1
  if sepReject w then (none, logs0)
  else
    let rel := pyOr linkage (("synonyms").data)
    let emitted := emitTerms env word lang pos rel item_sense qres.2.1 qres.2.2
      (w.splitOn ',')
    (some emitted.1, logs0 ++ emitted.2)

/-!
The heading classifier (lines 238-288 of `recurse`): seven dispositions
evaluated in order.  The walker applies `applyDisposition` to the context
and recurses (or stops, for an ignored section). -/

/-- The seven dispositions, with the payloads computed at each branch. -/
inductive Disposition where
  | language (subtitle : Str)
  | senseHeading (s : Str)
  | ignoredSection
  | relationType (l : Str)
  | partOfSpeech (p : Str)
  | tagOnly (tags : List Str)
  | unknown
deriving DecidableEq, Repr

/-- The classifier chain exactly as in the source: language test
(`name_to_code(subtitle, "en") != ""`, where a Python `None` result also
differs from `""`), sense marker test on the lowercased strings, the
ignored-subtitle tuple, `LINKAGE_SUBTITLES`, `POS_SUBTITLES`,
`IGNORED_SUBTITLE_TAGS_MAP`, and the logged fallthrough. -/
def classifyHeading (env : Env) (subtitle : Str) : Disposition :=
  if env.name_to_code subtitle ≠ some [] then .language subtitle
  else if (listLower env.senseMarker).isPrefixOf (listLower subtitle) then
    .senseHeading (subtitle.drop env.senseMarker.length)
  else
    let st := listLower subtitle
    if st ∈ ignoredSubtitles then .ignoredSection
    else match env.linkageSubtitles st with
    | some l => .relationType l
    | none =>
      match env.posSubtitles st with
      | some p => .partOfSpeech p
      | none =>
        match List.lookup st IGNORED_SUBTITLE_TAGS_MAP with
        | some tgs => .tagOnly tgs
        | none => .unknown

/-- The context mutations performed at each classifier branch. -/
def applyDisposition : Disposition → Ctx → Ctx
  | .language l, ctx =>
    { lang := some l, pos := none, sense := none, linkage := none,
      subtitle_tags := ctx.subtitle_tags }
  | .senseHeading s, ctx => { ctx with sense := some s, linkage := none }
  | .ignoredSection, ctx => ctx
  | .relationType l, ctx => { ctx with linkage := some l }
  | .partOfSpeech p, ctx =>
    { ctx with pos := some p, sense := none, linkage := none }
  | .tagOnly tgs, ctx => { ctx with subtitle_tags := tgs }
  | .unknown, ctx => ctx

/-- Rule number of a disposition (the priority order of the source). -/
def ruleIndex : Disposition → Nat
  | .language _ => 1
  | .senseHeading _ => 2
  | .ignoredSection => 3
  | .relationType _ => 4
  | .partOfSpeech _ => 5
  | .tagOnly _ => 6
  | .unknown => 7

/-- The raw matching condition of each numbered classifier rule, read off
the source tests independently of the dispatch chain. -/
def ruleApplies (env : Env) (subtitle : Str) : Nat → Prop
  | 1 => env.name_to_code subtitle ≠ some []
  | 2 => (listLower env.senseMarker).isPrefixOf (listLower subtitle) = true
  | 3 => listLower subtitle ∈ ignoredSubtitles
  | 4 => (env.linkageSubtitles (listLower subtitle)).isSome = true
  | 5 => (env.posSubtitles (listLower subtitle)).isSome = true
  | 6 => (List.lookup (listLower subtitle) IGNORED_SUBTITLE_TAGS_MAP).isSome = true
  | 7 => True
  | _ => False

/-- The terminal-list item loop (`for node in contents.children`):
strings and non-`LIST_ITEM` nodes are skipped; each item line is cleaned
and processed; a `none` from `processItem` is the Python `return None`
that aborts the whole list, discarding every accumulated record (the logs
already emitted remain emitted). -/
def processListItems (env : Env) (word : Str) (lang : Str)
    (pos sense linkage : Option Str) :
    WList → Option (List ThesaurusTerm) × List LogEvent
  | .nil => (some [], [])
  | .cons n t =>
    match n with
    | .text _ => processListItems env word lang pos sense linkage t
    | .node k _ _ children =>
      if k = NKind.listItem then
        match processItem env word lang pos sense linkage (cleanText children) with
        | (none, ls) => (none, ls)
        | (some ts, ls) =>
          match processListItems env word lang pos sense linkage t with
          | (none, ls2) => (none, ls ++ ls2)
          | (some ts2, ls2) => (some (ts ++ ts2), ls ++ ls2)
      else processListItems env word lang pos sense linkage t

mutual
/-- The recursive walker `recurse` on a single node, with the `nonlocal`
state passed in and returned explicitly.  Branches, in source order:
terminal list (a `LIST` containing no nested `LIST`), non-heading
container (`kind not in LEVEL_KINDS`, which recurses into `sarg or largs`
— recursing into a plain string returns `None` — and into the children),
and the heading branch driven by the classifier. -/
def recurseNode (env : Env) (word : Str) (ctx : Ctx) :
    WNode → Option (List ThesaurusTerm) × Ctx × List LogEvent
  | .text _ => (none, ctx, [])
  | .node kind sarg largs children =>
    if kind = NKind.list && !(wlistHasKind NKind.list children) then
      match ctx.lang with
      | none => (none, ctx, [LogEvent.unexpectedListWithoutLang])
      | some lang =>
        let r := processListItems env word lang ctx.pos ctx.sense ctx.linkage
          children
        (r.1, ctx, r.2)
    else if kind ≠ NKind.level then
      let r1 := if sarg.isEmpty then recurseWList env word ctx largs
        else (none, ctx, [])
      let r2 := recurseWList env word r1.2.1 children
      (some ((r1.1.getD []) ++ (r2.1.getD [])), r2.2.1, r1.2.2 ++ r2.2.2)
    else
      let subtitle := if sarg.isEmpty then wlistText largs else sarg
      match classifyHeading env subtitle with
      | .ignoredSection => (none, ctx, [])
      | .unknown =>
        let r := recurseWList env word ctx children
        (r.1, r.2.1, LogEvent.unhandledSubtitle subtitle :: r.2.2)
      | d => recurseWList env word (applyDisposition d ctx) children

/-- The walker `recurse` on a list/tuple of contents: walk each element in
order,
threading the state; `None` results contribute nothing. -/
def recurseWList (env : Env) (word : Str) (ctx : Ctx) :
    WList → Option (List ThesaurusTerm) × Ctx × List LogEvent
  | .nil => (some [], ctx, [])
  | .cons n t =>
    let r1 := recurseNode env word ctx n
    let r2 := recurseWList env word r1.2.1 t
    (some ((r1.1.getD []) ++ (r2.1.getD [])), r2.2.1, r1.2.2 ++ r2.2.2)
end

/-- One attempt, at the current position, to match
`re.search(r"(?s)\{\{ws header\|[^}]*lang=([^}|]*)", text)`: the literal
header opener, then (greedily) the last `lang=` occurring before the next
closing brace, then the group of characters other than brace and pipe. -/
def wsHeaderAt (s : Str) : Option Str :=
  if (("\x7b\x7bws header|").data).isPrefixOf s then
    let afterBar := s.drop 12
    let window := afterBar.takeWhile (· != '\x7d')
    match splitLast (("lang=").data) window with
    | none => none
    | some (before, _) =>
      let j := before.length + 5
      some ((afterBar.drop j).takeWhile (fun c => c != '\x7d' && c != '|'))
  else none

/-- Left-to-right scan for the `ws header` search (fuel is the text
length). -/
def wsHeaderScanF : Nat → Str → Option Str
  | 0, _ => none
  | _ + 1, [] => none
  | n + 1, c :: rest =>
    match wsHeaderAt (c :: rest) with
    | some g => some g
    | none => wsHeaderScanF n rest

/-- The page-level language seed: `{{ws header|lang=xx}}` scanned in the
raw text, the code then resolved through `code_to_name` (line 107-109). -/
def seedLang (env : Env) (text : Str) : Option Str :=
  match wsHeaderScanF text.length text with
  | some g => some (env.code_to_name g)
  | none => none

/-- Python `word.find(":")` restricted as in lines 88-90: remove a short
language-code infix when the first colon falls at index 1..4. -/
def stripLangInfix (word : Str) : Str :=
  match word.findIdx? (· == ':') with
  | some i => if 0 < i && i < 5 then word.drop (i + 1) else word
  | none => word

/-- Top level `extract_thesaurus_page`: page-level rejection (requested-entries
placeholder, slash in the title), entry-word derivation from the title,
language pre-seeding from the raw text, then the walk over the parsed
tree.  Expansion and parsing (`wxr.wtp.expand`, `wxr.wtp.parse`) are the
external parser; the tree they produce is the `tree` argument. -/
def extract_thesaurus_page (env : Env) (nsLocalName : Str) (title : Str)
    (text : Str) (tree : WNode) : Option (List ThesaurusTerm) :=
  if (("Thesaurus:Requested entries ").data).isPrefixOf title then none
  else if title.contains '/' then none
  else
    let word := stripLangInfix (title.drop (nsLocalName.length + 1))
    let ctx0 : Ctx :=
      { lang := seedLang env text, pos := none, sense := none,
        linkage := none, subtitle_tags := [] }
    (recurseNode env word ctx0 tree).1

/-!
Concrete material shared by the claim theorems: a sample environment
(instantiating the external tables) and tree-building helpers. -/

/-- A sample environment: English resolves to `en`, every other name to
the empty code (as `mediawiki_langcodes` does for unknown names);
`synonyms`/`antonyms` are relation subtitles; `noun` is a
part-of-speech subtitle; the qualifier parser deposits the raw qualifier
span as a single tag. -/
def envEx : Env := {
  name_to_code := fun s =>
    if s = ("English").data then some (("en").data) else some [],
  code_to_name := fun _ => [],
  senseMarker := ("Sense:").data,
  linkageSubtitles := fun s =>
    if s = ("synonyms").data then some (("synonyms").data)
    else if s = ("antonyms").data then some (("antonyms").data)
    else none,
  posSubtitles := fun s =>
    if s = ("noun").data then some (("noun").data) else none,
  parseSenseQualifier := fun q => ([q], []),
  nsPrefixes := [("Thesaurus:").data]
}

/-- A list item node holding one text line. -/
def exListItem (s : Str) : WNode :=
  .node NKind.listItem ("*").data WList.nil (ofList [WNode.text s])

/-- A flat (hence terminal) list node with the given item lines. -/
def exList (items : List Str) : WNode :=
  .node NKind.list ("*").data WList.nil (ofList (items.map exListItem))

/-- A walk context in which the language is already set to English. -/
def ctxEnglish : Ctx :=
  { lang := some (("English").data), pos := none, sense := none,
    linkage := none, subtitle_tags := [] }

/-- A record as emitted under `envEx`/`ctxEnglish` with no qualifier, no
transliteration and the default relation type. -/
def plainRec (word term : Str) (sense : Option Str) : ThesaurusTerm :=
  { entry := word, language_code := some (("en").data), pos := none,
    linkage := ("synonyms").data, term := term, tags := none,
    topics := none, roman := none, sense := sense }

/-- The Example-4 tree: a tag-only heading `Slang` enclosing a
relation-type heading `Synonyms` enclosing the terminal list `* qux`. -/
def treeSlangSynonyms : WNode :=
  .node NKind.root [] WList.nil (ofList [
    .node NKind.level ("Slang").data WList.nil (ofList [
      .node NKind.level ("Synonyms").data WList.nil (ofList [
        exList [("qux").data]])])])

/-- Claim C1 (code bug): walking the Example-4 tree (tag-only heading
`Slang` over relation-type heading `Synonyms` over list `* qux`) under an
already-set language emits exactly one record for `qux` with
`relation_type = synonyms` — but its tags are `none`, not `{slang}`: the
classifier does store the tag in `subtitle_tags` (second conjunct), yet
the emission site never reads that field, so the tag never reaches the
record (third conjunct). -/
theorem C1_tag_only_heading_tag_never_emitted :
    recurseNode envEx (("bright").data) ctxEnglish treeSlangSynonyms
      = (some [plainRec (("bright").data) (("qux").data) none],
         { lang := some (("English").data), pos := none, sense := none,
           linkage := some (("synonyms").data),
           subtitle_tags := [("slang").data] }, []) ∧
    applyDisposition (classifyHeading envEx (("Slang").data)) ctxEnglish
      = { ctxEnglish with subtitle_tags := [("slang").data] } ∧
    (plainRec (("bright").data) (("qux").data) none).tags = none := by
  decide

/-- Claim C2 (code bug): in a terminal list `foo / em-dash / bar` under a
set language, the em-dash item triggers the `return None` of line 194,
aborting the whole list: no records at all are emitted (first conjunct),
although the same list without the separator item yields its two records
(second conjunct).  The claim (and the comment `skip` in the source) say
the separator item alone should be rejected. -/
theorem C2_separator_item_aborts_whole_list :
    recurseNode envEx (("w").data) ctxEnglish
        (exList [("foo").data, ('—' :: []), ("bar").data])
      = (none, ctxEnglish, []) ∧
    recurseNode envEx (("w").data) ctxEnglish
        (exList [("foo").data, ("bar").data])
      = (some [plainRec (("w").data) (("foo").data) none,
               plainRec (("w").data) (("bar").data) none],
         ctxEnglish, []) := by
  decide

/-- Claim C7: the list item `(formal): foo, bar` processed under language
English with no relation-type heading in scope yields exactly two
records, both with sense `formal` and the default relation type
`synonyms`, with terms `foo` and `bar`. -/
theorem C7_leading_sense_marker_two_records :
    processItem envEx (("w").data) (("English").data) none none none
        (("(formal): foo, bar").data)
      = (some [plainRec (("w").data) (("foo").data) (some (("formal").data)),
               plainRec (("w").data) (("bar").data) (some (("formal").data))],
         []) := by
  decide

/-- Claim C3: the heading classifier is total and deterministic — being a
function into the seven-constructor `Disposition` type it yields exactly
one disposition for every label and environment — and it implements the
priority order 1..7: the rule matching the returned disposition applies,
and no lower-numbered rule applies. -/
theorem C3_classifier_total_and_least_rule (env : Env) (st : Str) :
    1 ≤ ruleIndex (classifyHeading env st) ∧
    ruleIndex (classifyHeading env st) ≤ 7 ∧
    ruleApplies env st (ruleIndex (classifyHeading env st)) ∧
    ∀ j, 1 ≤ j → j < ruleIndex (classifyHeading env st) →
      ¬ ruleApplies env st j := by
  by_cases h1 : env.name_to_code st ≠ some []
  · have hc : classifyHeading env st = .language st := by
      simp [classifyHeading, h1]
    rw [hc]
    refine ⟨by simp [ruleIndex], by simp [ruleIndex], h1, ?_⟩
    intro j hj1 hj2
    simp only [ruleIndex] at hj2
    omega
  · rw [not_ne_iff] at h1
    by_cases h2 : (listLower env.senseMarker).isPrefixOf (listLower st) = true
    · have hc : classifyHeading env st
          = .senseHeading (st.drop env.senseMarker.length) := by
        simp [classifyHeading, h1, h2]
      rw [hc]
      refine ⟨by simp [ruleIndex], by simp [ruleIndex], h2, ?_⟩
      intro j hj1 hj2
      simp only [ruleIndex] at hj2
      interval_cases j
      · simp only [ruleApplies, h1]
        exact fun hcon => hcon rfl
    · by_cases h3 : listLower st ∈ ignoredSubtitles
      · have hc : classifyHeading env st = .ignoredSection := by
          simp [classifyHeading, h1, h2, h3]
        rw [hc]
        refine ⟨by simp [ruleIndex], by simp [ruleIndex], h3, ?_⟩
        intro j hj1 hj2
        simp only [ruleIndex] at hj2
        interval_cases j
        · simp only [ruleApplies, h1]
          exact fun hcon => hcon rfl
        · exact h2
      · cases hl : env.linkageSubtitles (listLower st) with
        | some l =>
          have hc : classifyHeading env st = .relationType l := by
            simp [classifyHeading, h1, h2, h3, hl]
          rw [hc]
          refine ⟨by simp [ruleIndex], by simp [ruleIndex],
            by simp [ruleIndex, ruleApplies, hl], ?_⟩
          intro j hj1 hj2
          simp only [ruleIndex] at hj2
          interval_cases j
          · simp only [ruleApplies, h1]
            exact fun hcon => hcon rfl
          · exact h2
          · exact h3
        | none =>
          cases hp : env.posSubtitles (listLower st) with
          | some p =>
            have hc : classifyHeading env st = .partOfSpeech p := by
              simp [classifyHeading, h1, h2, h3, hl, hp]
            rw [hc]
            refine ⟨by simp [ruleIndex], by simp [ruleIndex],
              by simp [ruleIndex, ruleApplies, hp], ?_⟩
            intro j hj1 hj2
            simp only [ruleIndex] at hj2
            interval_cases j
            · simp only [ruleApplies, h1]
              exact fun hcon => hcon rfl
            · exact h2
            · exact h3
            · simp [ruleApplies, hl]
          | none =>
            cases ht : List.lookup (listLower st) IGNORED_SUBTITLE_TAGS_MAP with
            | some tgs =>
              have hc : classifyHeading env st = .tagOnly tgs := by
                simp [classifyHeading, h1, h2, h3, hl, hp, ht]
              rw [hc]
              refine ⟨by simp [ruleIndex], by simp [ruleIndex],
                by simp [ruleIndex, ruleApplies, ht], ?_⟩
              intro j hj1 hj2
              simp only [ruleIndex] at hj2
              interval_cases j
              · simp only [ruleApplies, h1]
                exact fun hcon => hcon rfl
              · exact h2
              · exact h3
              · simp [ruleApplies, hl]
              · simp [ruleApplies, hp]
            | none =>
              have hc : classifyHeading env st = .unknown := by
                simp [classifyHeading, h1, h2, h3, hl, hp, ht]
              rw [hc]
              refine ⟨by simp [ruleIndex], by simp [ruleIndex],
                by simp [ruleIndex, ruleApplies], ?_⟩
              intro j hj1 hj2
              simp only [ruleIndex] at hj2
              interval_cases j
              · simp only [ruleApplies, h1]
                exact fun hcon => hcon rfl
              · exact h2
              · exact h3
              · simp [ruleApplies, hl]
              · simp [ruleApplies, hp]
              · simp [ruleApplies, ht]

/-- A crafted-collision environment: every label resolves as a language
name, and `synonyms` is also a relation subtitle, so rules 1 and 4 both
match on `synonyms`. -/
def envCollide : Env := {
  name_to_code := fun _ => some (("xx").data),
  code_to_name := fun _ => [],
  senseMarker := ("Sense:").data,
  linkageSubtitles := fun s =>
    if s = ("synonyms").data then some (("synonyms").data) else none,
  posSubtitles := fun _ => none,
  parseSenseQualifier := fun _ => ([], []),
  nsPrefixes := []
}

/-- Witness for C3 at the crafted collision: the rule indicated by the
classifier applies, and the collision is resolved in favour of the
lowest-numbered rule (language). -/
theorem C3_witness :
    ruleApplies envCollide (("synonyms").data)
      (ruleIndex (classifyHeading envCollide (("synonyms").data))) ∧
    classifyHeading envCollide (("synonyms").data)
      = Disposition.language (("synonyms").data) :=
  ⟨(C3_classifier_total_and_least_rule envCollide (("synonyms").data)).2.2.1,
   by decide⟩

/-- Claim C4: when the classifier recognizes a language heading, the
context update applied by the walker sets `lang` and clears `pos`,
`sense` and `linkage` (keeping the inherited tags); when it recognizes a
part-of-speech heading, the update sets `pos`, clears `sense` and
`linkage` and leaves `lang` unchanged. -/
theorem C4_language_and_pos_heading_resets (env : Env) (st : Str) (ctx : Ctx)
    (l p : Str) :
    (classifyHeading env st = .language l →
      applyDisposition (classifyHeading env st) ctx
        = { lang := some l, pos := none, sense := none, linkage := none,
            subtitle_tags := ctx.subtitle_tags }) ∧
    (classifyHeading env st = .partOfSpeech p →
      applyDisposition (classifyHeading env st) ctx
        = { lang := ctx.lang, pos := some p, sense := none, linkage := none,
            subtitle_tags := ctx.subtitle_tags }) := by
  constructor
  · intro h
    rw [h]
    rfl
  · intro h
    rw [h]
    rfl

/-- A context with every field populated, to exercise the resets. -/
def ctxFull : Ctx :=
  { lang := some (("Latin").data), pos := some (("verb").data),
    sense := some (("bright").data), linkage := some (("antonyms").data),
    subtitle_tags := [("slang").data] }

/-- Witness for C4: under `envEx`, `English` classifies as a language
heading and clears `pos`/`sense`/`linkage`; `noun` classifies as a
part-of-speech heading, clears `sense`/`linkage` and keeps `lang`. -/
theorem C4_witness :
    applyDisposition (classifyHeading envEx (("English").data)) ctxFull
      = { lang := some (("English").data), pos := none, sense := none,
          linkage := none, subtitle_tags := ctxFull.subtitle_tags } ∧
    applyDisposition (classifyHeading envEx (("noun").data)) ctxFull
      = { lang := ctxFull.lang, pos := some (("noun").data), sense := none,
          linkage := none, subtitle_tags := ctxFull.subtitle_tags } :=
  ⟨(C4_language_and_pos_heading_resets envEx (("English").data) ctxFull
      (("English").data) (("noun").data)).1 (by decide),
   (C4_language_and_pos_heading_resets envEx (("noun").data) ctxFull
      (("English").data) (("noun").data)).2 (by decide)⟩

/-- Claim C5: a page whose title contains a slash or is a
requested-entries placeholder is rejected before the walk: the extractor
returns no records whatever the parsed tree and body are. -/
theorem C5_page_level_rejection (env : Env) (ns title text : Str)
    (tree : WNode)
    (h : '/' ∈ title ∨
      (("Thesaurus:Requested entries ").data).isPrefixOf title = true) :
    extract_thesaurus_page env ns title text tree = none := by
  unfold extract_thesaurus_page
  rcases h with h | h
  · simp [h]
  · simp [h]

/-- Witness for C5: a slash title is rejected, with an arbitrary tree. -/
theorem C5_witness :
    extract_thesaurus_page envEx (("Thesaurus").data)
      (("Thesaurus:a/b").data) [] (WNode.text []) = none :=
  C5_page_level_rejection envEx (("Thesaurus").data) (("Thesaurus:a/b").data)
    [] (WNode.text []) (Or.inl (by decide))

/-- Replacing the language resolver leaves the qualifier stage unchanged
(it only consults `parseSenseQualifier`). -/
theorem qualStep_update (env : Env) (f : Str → Option Str) (s0 : Option Str)
    (w : Str) :
    qualStep { env with name_to_code := f } s0 w = qualStep env s0 w := rfl

/-- Replacing the language resolver leaves the per-candidate residue
unchanged (it only consults `nsPrefixes`). -/
theorem termResidue_update (env : Env) (f : Str → Option Str) (w1 : Str) :
    termResidue { env with name_to_code := f } w1 = termResidue env w1 := rfl

/-- Every record produced by the inner loop carries exactly the resolver
result as its language code. -/
theorem emitTerms_language_code (env : Env) (word lang : Str)
    (pos : Option Str) (rel : Str) (s0 : Option Str) (tags topics : List Str)
    (parts : List Str) :
    ∀ r ∈ (emitTerms env word lang pos rel s0 tags topics parts).1,
      r.language_code = env.name_to_code lang := by
  induction parts with
  | nil => intro r hr; simp [emitTerms] at hr
  | cons w1 rest ih =>
    intro r hr
    cases hcond : (termResidue env w1).isEmpty with
    | true =>
      simp only [emitTerms, hcond, if_true] at hr
      exact ih r hr
    | false =>
      simp only [emitTerms, hcond, Bool.false_eq_true, if_false,
        List.mem_cons] at hr
      rcases hr with hr | hr
      · subst hr
        rfl
      · exact ih r hr

/-- If the resolver fails on the language name and the inner loop emits at
least one record, the diagnostic log event is among its log output. -/
theorem emitTerms_log_event (env : Env) (word lang : Str) (pos : Option Str)
    (rel : Str) (s0 : Option Str) (tags topics : List Str) (parts : List Str)
    (hnone : env.name_to_code lang = none)
    (hne : (emitTerms env word lang pos rel s0 tags topics parts).1 ≠ []) :
    LogEvent.langNotRecognized lang ∈
      (emitTerms env word lang pos rel s0 tags topics parts).2 := by
  induction parts with
  | nil => simp [emitTerms] at hne
  | cons w1 rest ih =>
    cases hcond : (termResidue env w1).isEmpty with
    | true =>
      simp only [emitTerms, hcond, if_true] at hne ⊢
      exact ih hne
    | false =>
      simp [emitTerms, hcond, hnone]

/-- Replacing the language resolver changes the emitted records only in
their `language_code` field. -/
theorem emitTerms_resolver_map (env : Env) (f : Str → Option Str)
    (word lang : Str) (pos : Option Str) (rel : Str) (s0 : Option Str)
    (tags topics : List Str) (parts : List Str) :
    (emitTerms { env with name_to_code := f } word lang pos rel s0 tags
        topics parts).1
      = (emitTerms env word lang pos rel s0 tags topics parts).1.map
          (fun t => { t with language_code := f lang }) := by
  induction parts with
  | nil => simp [emitTerms]
  | cons w1 rest ih =>
    cases hcond : (termResidue env w1).isEmpty with
    | true =>
      simp only [emitTerms, termResidue_update, hcond, if_true]
      exact ih
    | false =>
      simp only [emitTerms, termResidue_update, hcond, Bool.false_eq_true,
        if_false, List.map_cons, List.cons.injEq]
      exact ⟨trivial, ih⟩

/-- Claim C6: when a terminal-list item is processed with a language name
the resolver cannot turn into a code, the diagnostic is logged and every
record is still emitted with an absent (`none`) language code; moreover
the emitted terms do not depend on the resolver at all — swapping in any
other resolver `f` changes only the `language_code` field of the records,
so no term is dropped. -/
theorem C6_unresolved_language_logged_not_dropped (env : Env)
    (f : Str → Option Str) (word lang : Str)
    (pos sense linkage : Option Str) (w : Str)
    (recs : List ThesaurusTerm) (logs : List LogEvent) (r : ThesaurusTerm)
    (hnone : env.name_to_code lang = none)
    (hrun : processItem env word lang pos sense linkage w = (some recs, logs))
    (hr : r ∈ recs) :
    r.language_code = none ∧
    LogEvent.langNotRecognized lang ∈ logs ∧
    (processItem { env with name_to_code := f } word lang pos sense linkage
        w).1
      = some (recs.map (fun t => { t with language_code := f lang })) := by
  simp only [processItem, qualStep_update] at hrun ⊢
  split at hrun
  · exact absurd hrun (by simp)
  · rename_i hsep
    simp only [Prod.mk.injEq, Option.some.injEq] at hrun
    obtain ⟨h1, h2⟩ := hrun
    have hrE : r ∈ (emitTerms env word lang pos
        (pyOr linkage (("synonyms").data))
        (match senseSplit w with
          | some p => some p.1
          | none => sense)
        (qualStep env (match senseSplit w with
          | some p => some p.1
          | none => sense) (removeGloss (removeWS (match senseSplit w with
          | some p => p.2
          | none => w)))).2.1
        (qualStep env (match senseSplit w with
          | some p => some p.1
          | none => sense) (removeGloss (removeWS (match senseSplit w with
          | some p => p.2
          | none => w)))).2.2
        ((qualStep env (match senseSplit w with
          | some p => some p.1
          | none => sense) (removeGloss (removeWS (match senseSplit w with
          | some p => p.2
          | none => w)))).1.splitOn ',')).1 := by
      rw [h1]
      exact hr
    refine ⟨?_, ?_, ?_⟩
    · have := emitTerms_language_code env word lang pos
        (pyOr linkage (("synonyms").data)) _ _ _ _ r hrE
      rw [this, hnone]
    · rw [← h2]
      refine List.mem_append_right _ ?_
      exact emitTerms_log_event env word lang pos _ _ _ _ _ hnone
        (List.ne_nil_of_mem hrE)
    · rw [if_neg hsep, emitTerms_resolver_map, h1]

/-- An environment whose language resolver fails on every name. -/
def envNoLang : Env := { envEx with name_to_code := fun _ => none }

/-- The record emitted for item `foo` under the failing resolver: the
language code is absent, the term is kept. -/
def recNoCode : ThesaurusTerm :=
  { entry := ("w").data, language_code := none, pos := none,
    linkage := ("synonyms").data, term := ("foo").data, tags := none,
    topics := none, roman := none, sense := none }

/-- Witness for C6: for the item `foo` under the unresolvable language
`Xish`, the record is emitted with an absent code, the diagnostic is in
the log output, and swapping in a resolver returning `xx` changes only
the code field. -/
theorem C6_witness :
    recNoCode.language_code = none ∧
    LogEvent.langNotRecognized (("Xish").data)
      ∈ [LogEvent.langNotRecognized (("Xish").data)] ∧
    (processItem { envNoLang with name_to_code := fun _ => some (("xx").data) }
        (("w").data) (("Xish").data) none none none (("foo").data)).1
      = some ([recNoCode].map
          (fun t => { t with language_code := some (("xx").data) })) :=
  C6_unresolved_language_logged_not_dropped envNoLang
    (fun _ => some (("xx").data)) (("w").data) (("Xish").data) none none none
    (("foo").data) [recNoCode] [LogEvent.langNotRecognized (("Xish").data)]
    recNoCode rfl (by decide) (by decide)

/-- Claim C8: transliteration extraction is idempotent — the term
component of a successful extraction (after the `strip` the source
applies to it) contains no further sentinel pair, so re-running the
extractor on it finds nothing. -/
theorem C8_xlit_extraction_idempotent (s bef x : Str)
    (h : xlitSplit s = some (bef, x)) :
    xlitSplit (pyStrip bef) = none := by
  simp only [xlitSplit] at h
  cases hs : splitFirst XLITSpat s with
  | none => rw [hs] at h; exact absurd h (by simp)
  | some p =>
    obtain ⟨b0, rest⟩ := p
    rw [hs] at h
    simp only [] at h
    cases he : splitFirst XLITEpat rest with
    | none => rw [he] at h; exact absurd h (by simp)
    | some q =>
      obtain ⟨mid, aft⟩ := q
      rw [he] at h
      simp only [Option.some.injEq, Prod.mk.injEq] at h
      obtain ⟨h1, _⟩ := h
      have hno : hasSub XLITSpat b0 = false :=
        @splitFirst_before_no_occ XLITSpat s b0 rest (by decide) hs
      have hinf : pyStrip bef <:+: b0 := by
        have i1 : pyStrip bef <+: bef.dropWhile isSpc := by
          simp only [pyStrip]
          exact List.rdropWhile_prefix _ _
        have i2 : bef.dropWhile isSpc <:+ bef := List.dropWhile_suffix _
        have i3 : bef <+: b0 := by
          rw [← h1]
          exact List.rdropWhile_prefix _ _
        exact (i1.isInfix.trans i2.isInfix).trans i3.isInfix
      have hno2 : hasSub XLITSpat (pyStrip bef) = false :=
        no_occ_mono hinf hno
      simp [xlitSplit, splitFirst_eq_none_of_no_occ hno2]

/-- Witness for C8: a concrete extraction followed by a re-run that finds
no transliteration. -/
theorem C8_witness : xlitSplit (pyStrip (("ab").data)) = none :=
  C8_xlit_extraction_idempotent (("ab XLITSromXLITE zz").data) (("ab").data)
    (("rom").data) (by decide)

/-- Claim C9: whenever a comma-split candidate starts with any configured
Thesaurus-namespace title marker, the source removes exactly the first
ten characters of the candidate (`w1[10:]`), whatever the length of the
marker that matched. -/
theorem C9_strip_always_ten_chars (env : Env) (w1 p : Str)
    (hp : p ∈ env.nsPrefixes) (hpre : p.isPrefixOf w1 = true) :
    stripNsFix env w1 = w1.drop 10 := by
  have hany : env.nsPrefixes.any (fun q => q.isPrefixOf w1) = true :=
    List.any_eq_true.mpr ⟨p, hp, hpre⟩
  simp [stripNsFix, hany]

/-- An environment whose namespace markers include the three-character
alias `WS:` besides the ten-character `Thesaurus:`. -/
def envWS : Env := { envEx with
  nsPrefixes := [("Thesaurus:").data, ("WS:").data] }

/-- Witness for C9: the six-character candidate `WS:dog` matches the
three-character marker, yet ten characters are removed. -/
theorem C9_witness : stripNsFix envWS (("WS:dog").data)
    = (("WS:dog").data).drop 10 :=
  C9_strip_always_ten_chars envWS (("WS:dog").data) (("WS:").data)
    (by decide) (by decide)

/-- Claim C10: for a candidate containing a sentinel pair (first start
sentinel, first end sentinel after it), the extractor returns exactly the
text before the start sentinel (with the whitespace run before the
sentinel removed; the pipeline then strips it fully) as the term source
and exactly the text between the sentinels as the transliteration; the
`post` text after the end sentinel appears in neither component. -/
theorem C10_xlit_pair_extraction (pre mid post : Str)
    (h1 : hasSub XLITSpat pre = false)
    (h2 : hasSub XLITEpat mid = false) :
    xlitSplit (pre ++ XLITSpat ++ mid ++ XLITEpat ++ post)
      = some (pre.rdropWhile isSpc, mid) := by
  have e1 := @splitFirst_append XLITSpat pre
    (mid ++ XLITEpat ++ post) (by decide) h1 (by decide)
  have e2 := @splitFirst_append XLITEpat mid post (by decide) h2
    (by decide)
  have hassoc : pre ++ XLITSpat ++ mid ++ XLITEpat ++ post
      = pre ++ XLITSpat ++ (mid ++ XLITEpat ++ post) := by
    simp [List.append_assoc]
  simp only [xlitSplit]
  rw [hassoc, e1]
  simp only [e2]

/-- Witness for C10: a concrete candidate with text on both sides of the
sentinel pair. -/
theorem C10_witness :
    xlitSplit ((("ab ").data) ++ XLITSpat ++ (("rom").data)
        ++ XLITEpat ++ ((" zz").data))
      = some ((("ab ").data).rdropWhile isSpc, ("rom").data) :=
  C10_xlit_pair_extraction (("ab ").data) (("rom").data) ((" zz").data)
    (by decide) (by decide)
